import Mathlib

/-!
Verification of the srclib data-version resolver
(`server/local/repos_srclib_version.go`).

The resolver answers: given a repository, a head commit and a path, which
already-analyzed commit's srclib data may be substituted for the head?  It
first tries an exact match in the version store, refuses to look back for
the root path ".", and otherwise searches backwards through history, bounded
by a lookback limit, down to (and including) the last commit that touched
the path.

The embedding keeps the Go function structure: `getSrclibDataVersionForPathT`
embeds `(*repos).GetSrclibDataVersionForPath` and
`getSrclibDataVersionForPathLookbackT` embeds
`(*repos).getSrclibDataVersionForPathLookback`.  Collaborator calls (access
control, the graph/version store, the ListCommits history service) are
abstracted as fallible functions in a `Collab` record, and every call is
recorded in an event trace so that "query X is (never) issued" properties
are statable.  `Collab.ofWorld` instantiates the collaborators over a pure
`World` (a linear commit history plus a set of built versions), which is how
the functional-correctness claims are settled.
-/

/-- `sourcegraph.SrclibDataVersion`: a resolved data version, the commit it
was built at plus how many commits behind the requested head it lies. -/
structure SrclibDataVersion where
  commitID : String
  commitsBehind : Int
  deriving DecidableEq, Repr

/-- Errors surfaced by the resolver or its collaborators.  `notFound` embeds
`grpc.Errorf(codes.NotFound, ...)`; `upstream` stands for any collaborator
(store / history-service) failure; `permissionDenied` for the access check. -/
inductive Err where
  | notFound (msg : String)
  | permissionDenied (msg : String)
  | upstream (msg : String)
  deriving DecidableEq, Repr

/-- One collaborator call issued by the resolver, in issue order. -/
inductive QueryEvent where
  | accessCheck (repo : String)
  | resolveRev (repo : String)
  | exactVersions (repo commit : String)
  | pathHistory (repo head path : String)
  | rangeList (repo head base : String) (limit : Int)
  | batchVersions (repo : String) (ids : List String)
  deriving DecidableEq, Repr

/-- The collaborators the resolver calls, as fallible functions.
`verifyReadAccess` is `accesscontrol.VerifyUserHasReadAccess`;
`resolveRepoRev` is `(*repos).resolveRepoRev` (defined outside the sampled
file, abstracted as a fallible check); `versionsExact` is the graph store's
`Versions(ByRepoCommitIDs(...))` query returning the commit ids of matching
records; `listCommitsPath h p` is `ListCommits` with `Path: p, PerPage: 1`;
`listCommitsRange h b lim` is `ListCommits` with `Base: b, PerPage: lim`;
`versionsBatch ids` is `Versions(ByRepos(...), ByCommitIDs(ids...))`;
`commitLogCacheSize` is `localcli.Flags.CommitLogCacheSize`. -/
structure Collab where
  verifyReadAccess : Except Err Unit
  resolveRepoRev : Except Err Unit
  versionsExact : String → Except Err (List String)
  listCommitsPath : String → String → Except Err (List String)
  listCommitsRange : String → String → Int → Except Err (List String)
  versionsBatch : List String → Except Err (List String)
  commitLogCacheSize : Int

/-- `var lookbackLimit int32 = 250; if Flags.CommitLogCacheSize > 250 {
lookbackLimit = Flags.CommitLogCacheSize }`. -/
def lookbackLimitOf (clcacheSize : Int) : Int :=
  if clcacheSize > 250 then clcacheSize else 250

/-- The final scan loop: `for i, cc := range candidateCommitIDs { if _,
present := verMap[cc]; present { return &SrclibDataVersion{cc, int32(i)} } }`.
`verMap` is the set of commit ids returned by the batch versions query. -/
def scanCandidates (verMap : List String) : List String → Int → Option SrclibDataVersion
  | [], _ => none
  | cc :: rest, i =>
    if cc ∈ verMap then some ⟨cc, i⟩ else scanCandidates verMap rest (i + 1)

def noCommitsForPathMsg (path repo : String) : String :=
  s!"no commits found for path {path} in repo {repo}"

def lastModifiedByHeadMsg (head : String) : String :=
  s!"no srclib data version found for head commit {head} (cannot look back because path was last modified by head commit)"

def rootMsg (head : String) : String :=
  s!"no srclib data version found for head commit {head} (cannot look back because path is root)"

def noVersionsFoundMsg (repo head path : String) (nCandidates nVersions : Nat) : String :=
  s!"no srclib data versions found for {repo}@{head}:{path} ({nCandidates} candidate commits, {nVersions} srclib data versions)"

/-- Tail of `getSrclibDataVersionForPathLookback` after `base` has been
computed: list candidate commits from `head` down to `base` (exclusive,
truncated to the lookback limit), re-append `base` when set, batch-query
which candidates have built versions, and return the first (nearest) hit
with its zero-based position as `CommitsBehind`.  `tr` is the trace of
events already issued. -/
def lookbackScan (c : Collab) (repo head base : String) (tr : List QueryEvent) :
    Except Err SrclibDataVersion × List QueryEvent :=
  let lookbackLimit := lookbackLimitOf c.commitLogCacheSize
  match c.listCommitsRange head base lookbackLimit with
  | .error e => (.error e, tr ++ [.rangeList repo head base lookbackLimit])
  | .ok commits =>
    let candidateCommitIDs := if base ≠ "" then commits ++ [base] else commits
    match c.versionsBatch candidateCommitIDs with
    | .error e =>
      (.error e,
        tr ++ [.rangeList repo head base lookbackLimit,
               .batchVersions repo candidateCommitIDs])
    | .ok vers =>
      let result := match scanCandidates vers candidateCommitIDs 0 with
        | some v => Except.ok v
        | none => Except.error (Err.notFound
            (noVersionsFoundMsg repo head "" candidateCommitIDs.length vers.length))
      (result,
        tr ++ [.rangeList repo head base lookbackLimit,
               .batchVersions repo candidateCommitIDs])

/-- Embeds `(*repos).getSrclibDataVersionForPathLookback`, with the trace of
collaborator calls it issues.  For a non-empty path the base (boundary)
commit is the single most recent commit touching the path at or before
`head`; for the empty path no base is computed and the range query is
unbounded below (truncated only by the lookback limit). -/
def getSrclibDataVersionForPathLookbackT (c : Collab) (repo head path : String) :
    Except Err SrclibDataVersion × List QueryEvent :=
  if path ≠ "" then
    match c.listCommitsPath head path with
    | .error e => (.error e, [.pathHistory repo head path])
    | .ok lastPathCommits =>
      if lastPathCommits.length ≠ 1 then
        (.error (.notFound (noCommitsForPathMsg path repo)), [.pathHistory repo head path])
      else
        let lastPathCommitID := lastPathCommits.headD ""
        if head = lastPathCommitID then
          (.error (.notFound (lastModifiedByHeadMsg head)), [.pathHistory repo head path])
        else
          lookbackScan c repo head lastPathCommitID [.pathHistory repo head path]
  else
    lookbackScan c repo head "" []

/-- Embeds `(*repos).GetSrclibDataVersionForPath`, with the trace of
collaborator calls it issues: access check, repo-rev resolution, exact-match
version query (returning with distance 0 on a unique hit), the
root-path refusal for `"."`, and otherwise the lookback search. -/
def getSrclibDataVersionForPathT (c : Collab) (repo head path : String) :
    Except Err SrclibDataVersion × List QueryEvent :=
  match c.verifyReadAccess with
  | .error e => (.error e, [.accessCheck repo])
  | .ok _ =>
    match c.resolveRepoRev with
    | .error e => (.error e, [.accessCheck repo, .resolveRev repo])
    | .ok _ =>
      match c.versionsExact head with
      | .error e =>
        (.error e, [.accessCheck repo, .resolveRev repo, .exactVersions repo head])
      | .ok vers =>
        if vers.length = 1 then
          (.ok ⟨vers.headD "", 0⟩,
            [.accessCheck repo, .resolveRev repo, .exactVersions repo head])
        else if path = "." then
          (.error (.notFound (rootMsg head)),
            [.accessCheck repo, .resolveRev repo, .exactVersions repo head])
        else
          let r := getSrclibDataVersionForPathLookbackT c repo head path
          (r.1, [.accessCheck repo, .resolveRev repo, .exactVersions repo head] ++ r.2)

/-- A pure instantiation of the collaborators' world: a linear commit
history listed from the head backwards (first element = head), the
`PerPage: 1` answer of the path-history query per path, the set of commits
having built srclib versions, the access-control verdict, and the
configured commit-log cache size. -/
structure World where
  history : List String
  touching : String → List String
  versions : List String
  readAccess : Bool
  clcacheSize : Int

/-- Pure collaborators over a `World`: the exact query returns the matching
record iff the commit is in `versions`; the range query returns the history
down to (excluding) `base`, truncated to the limit; the batch query filters
`versions` by the candidate ids.  No call fails except the access check. -/
def Collab.ofWorld (w : World) : Collab where
  verifyReadAccess :=
    if w.readAccess then .ok () else .error (.permissionDenied "read access denied")
  resolveRepoRev := .ok ()
  versionsExact := fun commit =>
    .ok (if commit ∈ w.versions then [commit] else [])
  listCommitsPath := fun _ path => .ok (w.touching path)
  listCommitsRange := fun _ base limit =>
    .ok ((if base = "" then w.history else w.history.takeWhile (fun x => x ≠ base)).take limit.toNat)
  versionsBatch := fun ids => .ok (w.versions.filter (fun v => v ∈ ids))
  commitLogCacheSize := w.clcacheSize

/-- The candidate commit sequence the lookback scan runs over, for a world
`w` and base commit `base`: the (truncated) range listing, with the base
re-appended when set. -/
def worldCandidates (w : World) (base : String) : List String :=
  let commits := (if base = "" then w.history
    else w.history.takeWhile (fun x => x ≠ base)).take (lookbackLimitOf w.clcacheSize).toNat
  if base ≠ "" then commits ++ [base] else commits

/-- A world whose head commit "h" has no built version but whose
grand-parent "b" does; the path-history query answers "h" for every path.
Used to exhibit the behavior of the resolver on the empty path. -/
def emptyPathWorld : World :=
  { history := ["h", "a", "b"]
    touching := fun _ => ["h"]
    versions := ["b"]
    readAccess := true
    clcacheSize := 0 }

/-- A collaborator set that denies read access; every store/history answer
is benign so that any issued query would be visible in the result. -/
def deniedCollab : Collab :=
  { verifyReadAccess := .error (.permissionDenied "read access denied")
    resolveRepoRev := .ok ()
    versionsExact := fun _ => .ok []
    listCommitsPath := fun _ _ => .ok []
    listCommitsRange := fun _ _ _ => .ok []
    versionsBatch := fun _ => .ok []
    commitLogCacheSize := 0 }

/-- A world in which the boundary commit "c251" lies 251 commits behind the
head "c0", past the 250-commit lookback truncation, and is the only commit
with a built version. -/
def truncatedBoundaryWorld : World :=
  { history := (List.range 252).map (fun n => "c" ++ toString n)
    touching := fun _ => ["c251"]
    versions := ["c251"]
    readAccess := true
    clcacheSize := 0 }

/-- A world whose head "h" has no built version, whose grand-parent "b"
does, and whose path-history query answers "h" (the head itself) for every
path — in particular for the root path "", which by definition every commit
modifies. -/
def rootWindowWorld : World :=
  { history := ["h", "a", "b"]
    touching := fun _ => ["h"]
    versions := ["b"]
    readAccess := true
    clcacheSize := 0 }

def c1WitnessWorld : World :=
  { history := ["h", "a", "b", "m0", "x"]
    touching := fun _ => ["m0"]
    versions := ["b"]
    readAccess := true
    clcacheSize := 0 }

/-- Does `needle` occur as a contiguous subsequence of `hay`?  Used to
state that a propagated error message carries no request context. -/
def containsChars (needle : List Char) : List Char → Bool
  | [] => needle.isEmpty
  | c :: rest => needle.isPrefixOf (c :: rest) || containsChars needle rest

/-- Collaborators whose exact-match version query fails with an upstream
storage fault; everything else succeeds. -/
def failingExactCollab : Collab :=
  { verifyReadAccess := .ok ()
    resolveRepoRev := .ok ()
    versionsExact := fun _ => .error (.upstream "disk")
    listCommitsPath := fun _ _ => .ok []
    listCommitsRange := fun _ _ _ => .ok []
    versionsBatch := fun _ => .ok []
    commitLogCacheSize := 0 }

/-- Collaborators whose commit-range listing fails with an upstream
history-backend fault; everything before it succeeds. -/
def flakyRangeCollab : Collab :=
  { verifyReadAccess := .ok ()
    resolveRepoRev := .ok ()
    versionsExact := fun _ => .ok []
    listCommitsPath := fun _ _ => .ok ["m0"]
    listCommitsRange := fun _ _ _ => .error (.upstream "history backend down")
    versionsBatch := fun _ => .ok []
    commitLogCacheSize := 0 }

/-- Collaborators whose batch version query fails with an upstream store
fault; everything before it succeeds.  Exercised on the empty path, whose
lookback has no boundary commit. -/
def flakyBatchCollab : Collab :=
  { verifyReadAccess := .ok ()
    resolveRepoRev := .ok ()
    versionsExact := fun _ => .ok []
    listCommitsPath := fun _ _ => .ok []
    listCommitsRange := fun _ _ _ => .ok ["h", "a"]
    versionsBatch := fun _ => .error (.upstream "version store down")
    commitLogCacheSize := 0 }

deriving instance DecidableEq for Except

set_option maxRecDepth 100000

/-! ### Helper lemmas about the candidate scan -/

theorem scanCandidates_mem {verMap cs : List String} {i : Int} {v : SrclibDataVersion}
    (h : scanCandidates verMap cs i = some v) : v.commitID ∈ cs ∧ v.commitID ∈ verMap := by
  induction cs generalizing i with
  | nil => simp [scanCandidates] at h
  | cons cc rest ih =>
    rw [scanCandidates] at h
    by_cases hc : cc ∈ verMap
    · rw [if_pos hc] at h
      obtain rfl : v = ⟨cc, i⟩ := (Option.some_inj.mp h).symm
      exact ⟨List.mem_cons_self _ _, hc⟩
    · rw [if_neg hc] at h
      obtain ⟨h1, h2⟩ := ih h
      exact ⟨List.mem_cons_of_mem _ h1, h2⟩

theorem scanCandidates_found {verMap : List String} (cs : List String) (k : Nat) (c : String)
    (i : Int) (hk : cs[k]? = some c) (hc : c ∈ verMap)
    (hmiss : ∀ j, j < k → ∀ c', cs[j]? = some c' → c' ∉ verMap) :
    scanCandidates verMap cs i = some ⟨c, i + k⟩ := by
  induction cs generalizing k i with
  | nil => simp at hk
  | cons cc rest ih =>
    cases k with
    | zero =>
      obtain rfl : cc = c := by simpa using hk
      simp [scanCandidates, hc]
    | succ k =>
      have h0 : cc ∉ verMap := hmiss 0 (Nat.succ_pos _) cc (by simp)
      rw [scanCandidates, if_neg h0]
      have hrec := ih k (i + 1) (by simpa using hk)
        (fun j hj c' hj' => hmiss (j + 1) (by omega) c' (by simpa using hj'))
      rw [hrec]
      congr 1
      simp only [SrclibDataVersion.mk.injEq, true_and]
      push_cast
      ring

theorem scanCandidates_exists {verMap : List String} (cs : List String) (i : Int)
    (h : ∃ c ∈ cs, c ∈ verMap) : ∃ v, scanCandidates verMap cs i = some v := by
  induction cs generalizing i with
  | nil => simp at h
  | cons cc rest ih =>
    by_cases hc : cc ∈ verMap
    · exact ⟨⟨cc, i⟩, by simp [scanCandidates, hc]⟩
    · obtain ⟨c, hcs, hv⟩ := h
      rcases List.mem_cons.mp hcs with rfl | hrest
      · exact absurd hv hc
      · obtain ⟨v, hvv⟩ := ih (i + 1) ⟨c, hrest, hv⟩
        exact ⟨v, by simp [scanCandidates, hc, hvv]⟩

/-! ### Evaluation lemmas over a pure `World` -/

theorem lookbackScan_ofWorld (w : World) (repo head base : String) (tr : List QueryEvent) :
    lookbackScan (Collab.ofWorld w) repo head base tr =
      ((match scanCandidates (w.versions.filter (fun v => v ∈ worldCandidates w base))
          (worldCandidates w base) 0 with
        | some v => Except.ok v
        | none => Except.error (Err.notFound (noVersionsFoundMsg repo head ""
            (worldCandidates w base).length
            (w.versions.filter (fun v => v ∈ worldCandidates w base)).length))),
       tr ++ [.rangeList repo head base (lookbackLimitOf w.clcacheSize),
              .batchVersions repo (worldCandidates w base)]) := by
  simp only [lookbackScan, Collab.ofWorld, worldCandidates]

theorem lookbackT_ofWorld (w : World) (repo head path m : String)
    (hp : path ≠ "") (ht : w.touching path = [m]) (hm : head ≠ m) :
    getSrclibDataVersionForPathLookbackT (Collab.ofWorld w) repo head path =
      lookbackScan (Collab.ofWorld w) repo head m [.pathHistory repo head path] := by
  simp [getSrclibDataVersionForPathLookbackT, Collab.ofWorld, hp, ht, hm]

theorem resolve_ofWorld_eval (w : World) (repo head path : String)
    (hacc : w.readAccess = true) :
    getSrclibDataVersionForPathT (Collab.ofWorld w) repo head path =
      (if head ∈ w.versions then
        (Except.ok ⟨head, 0⟩,
          [.accessCheck repo, .resolveRev repo, .exactVersions repo head])
      else if path = "." then
        (Except.error (Err.notFound (rootMsg head)),
          [.accessCheck repo, .resolveRev repo, .exactVersions repo head])
      else
        ((getSrclibDataVersionForPathLookbackT (Collab.ofWorld w) repo head path).1,
          [.accessCheck repo, .resolveRev repo, .exactVersions repo head] ++
            (getSrclibDataVersionForPathLookbackT (Collab.ofWorld w) repo head path).2)) := by
  by_cases hv : head ∈ w.versions <;> by_cases hp : path = "." <;>
    simp [getSrclibDataVersionForPathT, Collab.ofWorld, hacc, hv, hp]

theorem mem_filter_mem_iff (vs ids : List String) (c : String) (hc : c ∈ ids) :
    c ∈ vs.filter (fun v => v ∈ ids) ↔ c ∈ vs := by
  simp [List.mem_filter, hc]

/-! ### Claim theorems -/

/-- C2: if an `AnalysisVersion` record exists exactly at `(repo, head)`,
resolution returns that record with distance 0 regardless of the path and
of the lookback bound, and the exact-match query is always the first
version-store/history query issued (right after the access check and the
rev resolution). -/
theorem c2_exact_match_priority (w : World) (repo head path : String)
    (hacc : w.readAccess = true) (hv : head ∈ w.versions) :
    getSrclibDataVersionForPathT (Collab.ofWorld w) repo head path =
      (Except.ok ⟨head, 0⟩,
        [.accessCheck repo, .resolveRev repo, .exactVersions repo head]) ∧
    (∀ w' : World, w'.readAccess = true →
      (getSrclibDataVersionForPathT (Collab.ofWorld w') repo head path).2.take 3 =
        [.accessCheck repo, .resolveRev repo, .exactVersions repo head]) := by
  constructor
  · rw [resolve_ofWorld_eval w repo head path hacc, if_pos hv]
  · intro w' hacc'
    rw [resolve_ofWorld_eval w' repo head path hacc']
    by_cases hv' : head ∈ w'.versions
    · simp [hv']
    · by_cases hp : path = "." <;> simp [hv', hp, List.take_append]

/-- Witness for C2 at a concrete world with a record at the head. -/
theorem c2_exact_match_priority_witness :
    getSrclibDataVersionForPathT
        (Collab.ofWorld
          { history := ["h"], touching := fun _ => [], versions := ["h"],
            readAccess := true, clcacheSize := 0 }) "r" "h" "p" =
      (Except.ok ⟨"h", 0⟩,
        [.accessCheck "r", .resolveRev "r", .exactVersions "r" "h"]) :=
  (c2_exact_match_priority
    { history := ["h"], touching := fun _ => [], versions := ["h"],
      readAccess := true, clcacheSize := 0 } "r" "h" "p" rfl (by decide)).1

/-- C3 counterexample: for the empty path `""` (which the claim counts as
the root) with no exact record at head, the code does NOT return NotFound:
it performs the lookback (issuing the range query) and returns the hit two
commits behind the head. -/
theorem c3_counterexample :
    (getSrclibDataVersionForPathT (Collab.ofWorld emptyPathWorld) "r" "h" "").1 =
      Except.ok ⟨"b", 2⟩ ∧
    QueryEvent.rangeList "r" "h" "" 250 ∈
      (getSrclibDataVersionForPathT (Collab.ofWorld emptyPathWorld) "r" "h" "").2 := by
  decide

/-- C3 amended: only the path `"."` is treated as the root: if no exact
record exists at the head, resolution for `"."` fails NotFound
unconditionally with no path-history, range or batch query ever issued
(the empty path `""` instead proceeds to a lookback without a path-history
query, as the counterexample shows). -/
theorem c3_root_dot_restriction (w : World) (repo head : String)
    (hacc : w.readAccess = true) (hv : head ∉ w.versions) :
    getSrclibDataVersionForPathT (Collab.ofWorld w) repo head "." =
      (Except.error (Err.notFound (rootMsg head)),
        [.accessCheck repo, .resolveRev repo, .exactVersions repo head]) ∧
    (∀ h' p', QueryEvent.pathHistory repo h' p' ∉
      (getSrclibDataVersionForPathT (Collab.ofWorld w) repo head ".").2) ∧
    (∀ h' b l, QueryEvent.rangeList repo h' b l ∉
      (getSrclibDataVersionForPathT (Collab.ofWorld w) repo head ".").2) := by
  have heval := resolve_ofWorld_eval w repo head "." hacc
  rw [if_neg hv, if_pos rfl] at heval
  refine ⟨heval, ?_, ?_⟩ <;> intros <;> simp [heval]

/-- Witness for the amended C3 at a concrete world with no versions. -/
theorem c3_root_dot_restriction_witness :
    getSrclibDataVersionForPathT
        (Collab.ofWorld
          { history := ["h", "a"], touching := fun _ => ["a"], versions := [],
            readAccess := true, clcacheSize := 0 }) "r" "h" "." =
      (Except.error (Err.notFound (rootMsg "h")),
        [.accessCheck "r", .resolveRev "r", .exactVersions "r" "h"]) :=
  (c3_root_dot_restriction
    { history := ["h", "a"], touching := fun _ => ["a"], versions := [],
      readAccess := true, clcacheSize := 0 } "r" "h" rfl (by decide)).1

/-- C7: for a non-root path whose most recent touching commit is the head
itself, with no exact record at the head, resolution fails NotFound right
after the path-history query: no range query and no batch version query is
issued. -/
theorem c7_self_boundary_shortcircuit (w : World) (repo head path : String)
    (hacc : w.readAccess = true) (hv : head ∉ w.versions)
    (hp0 : path ≠ "") (hpd : path ≠ ".") (ht : w.touching path = [head]) :
    getSrclibDataVersionForPathT (Collab.ofWorld w) repo head path =
      (Except.error (Err.notFound (lastModifiedByHeadMsg head)),
        [.accessCheck repo, .resolveRev repo, .exactVersions repo head,
         .pathHistory repo head path]) ∧
    (∀ h' b l, QueryEvent.rangeList repo h' b l ∉
      (getSrclibDataVersionForPathT (Collab.ofWorld w) repo head path).2) ∧
    (∀ ids, QueryEvent.batchVersions repo ids ∉
      (getSrclibDataVersionForPathT (Collab.ofWorld w) repo head path).2) := by
  have heval := resolve_ofWorld_eval w repo head path hacc
  rw [if_neg hv, if_neg hpd] at heval
  have hlb : getSrclibDataVersionForPathLookbackT (Collab.ofWorld w) repo head path =
      (Except.error (Err.notFound (lastModifiedByHeadMsg head)),
        [.pathHistory repo head path]) := by
    simp [getSrclibDataVersionForPathLookbackT, Collab.ofWorld, hp0, ht]
  rw [hlb] at heval
  refine ⟨heval, ?_, ?_⟩ <;> intros <;> simp [heval]

/-- Witness for C7 at a concrete world whose path-history query returns the
head itself. -/
theorem c7_self_boundary_shortcircuit_witness :
    getSrclibDataVersionForPathT
        (Collab.ofWorld
          { history := ["h", "a"], touching := fun _ => ["h"], versions := [],
            readAccess := true, clcacheSize := 0 }) "r" "h" "p" =
      (Except.error (Err.notFound (lastModifiedByHeadMsg "h")),
        [.accessCheck "r", .resolveRev "r", .exactVersions "r" "h",
         .pathHistory "r" "h" "p"]) :=
  (c7_self_boundary_shortcircuit
    { history := ["h", "a"], touching := fun _ => ["h"], versions := [],
      readAccess := true, clcacheSize := 0 } "r" "h" "p" rfl (by decide)
    (by decide) (by decide) rfl).1

/-- C8: the effective lookback bound is the fixed default 250, overridable
only upward by the configured commit-log cache size (`v` when `v > 250`,
else 250), and the range query the lookback issues is truncated to exactly
this bound. -/
theorem c8_lookback_bound (v : Int) :
    ((v > 250 → lookbackLimitOf v = v) ∧ (v ≤ 250 → lookbackLimitOf v = 250)) ∧
    (∀ (w : World) (repo head path m : String), w.clcacheSize = v →
      w.readAccess = true → head ∉ w.versions → path ≠ "" → path ≠ "." →
      w.touching path = [m] → head ≠ m →
      QueryEvent.rangeList repo head m (lookbackLimitOf v) ∈
        (getSrclibDataVersionForPathT (Collab.ofWorld w) repo head path).2) := by
  refine ⟨⟨fun h => ?_, fun h => ?_⟩, ?_⟩
  · simp [lookbackLimitOf, h]
  · simp only [lookbackLimitOf, if_neg (by omega : ¬ v > 250)]
  · intro w repo head path m hcl hacc hv hp0 hpd ht hm
    subst hcl
    rw [resolve_ofWorld_eval w repo head path hacc, if_neg hv, if_neg hpd]
    rw [lookbackT_ofWorld w repo head path m hp0 ht hm, lookbackScan_ofWorld]
    simp

/-- Witness for C8 at the concrete configured value 300 (> 250) and a
concrete world: the issued range query carries limit 300. -/
theorem c8_lookback_bound_witness :
    lookbackLimitOf 300 = 300 ∧
    QueryEvent.rangeList "r" "h" "m0" 300 ∈
      (getSrclibDataVersionForPathT
        (Collab.ofWorld
          { history := ["h", "a", "m0"], touching := fun _ => ["m0"],
            versions := [], readAccess := true, clcacheSize := 300 })
        "r" "h" "p").2 := by
  refine ⟨(c8_lookback_bound 300).1.1 (by decide), ?_⟩
  have h := (c8_lookback_bound 300).2
    { history := ["h", "a", "m0"], touching := fun _ => ["m0"],
      versions := [], readAccess := true, clcacheSize := 300 }
    "r" "h" "p" "m0" rfl rfl (by decide) (by decide) (by decide) rfl (by decide)
  rwa [show lookbackLimitOf 300 = 300 from by decide] at h

/-- C10 (implicit): the access check is the resolver's first act — if it
fails, the access-control error is returned unchanged and no version-store
or history query is ever issued (the trace holds the access check alone);
and whenever the exact-match query returns any number of records other
than exactly one, the exact match is treated as absent and resolution
falls through to the root check and, for non-root paths, the lookback. -/
theorem c10_access_first_and_exact_fallthrough (c : Collab) (repo head path : String) :
    (∀ e, c.verifyReadAccess = .error e →
      getSrclibDataVersionForPathT c repo head path =
        (.error e, [.accessCheck repo])) ∧
    (∀ vers, c.verifyReadAccess = .ok () → c.resolveRepoRev = .ok () →
      c.versionsExact head = .ok vers → vers.length ≠ 1 →
      ((path = "." →
        (getSrclibDataVersionForPathT c repo head path).1 =
          .error (.notFound (rootMsg head))) ∧
       (path ≠ "." →
        (getSrclibDataVersionForPathT c repo head path).1 =
          (getSrclibDataVersionForPathLookbackT c repo head path).1))) := by
  constructor
  · intro e he
    simp [getSrclibDataVersionForPathT, he]
  · intro vers hacc hres hex hlen
    constructor <;> intro hp <;>
      simp [getSrclibDataVersionForPathT, hacc, hres, hex, hlen, hp]

/-- Witness for C10: with read access denied, the resolver returns the
access-control error unchanged and its trace holds only the access check. -/
theorem c10_access_first_and_exact_fallthrough_witness :
    getSrclibDataVersionForPathT deniedCollab "r" "h" "p" =
      (.error (.permissionDenied "read access denied"), [.accessCheck "r"]) :=
  (c10_access_first_and_exact_fallthrough deniedCollab "r" "h" "p").1
    (.permissionDenied "read access denied") rfl

/-- C4: the lookback scans the candidate sequence in head-to-tail
(nearest-to-head-first) order and returns the first candidate with a built
version, reporting that candidate's zero-based position in the sequence as
the distance; hence when records exist at several candidates the one
closest to the head wins. -/
theorem c4_nearest_candidate_wins (w : World) (repo head path m c : String) (k : Nat)
    (hp0 : path ≠ "") (ht : w.touching path = [m]) (hm : head ≠ m)
    (hk : (worldCandidates w m)[k]? = some c) (hcv : c ∈ w.versions)
    (hmiss : ∀ c' ∈ (worldCandidates w m).take k, c' ∉ w.versions) :
    (getSrclibDataVersionForPathLookbackT (Collab.ofWorld w) repo head path).1 =
      Except.ok ⟨c, (k : Int)⟩ := by
  rw [lookbackT_ofWorld w repo head path m hp0 ht hm, lookbackScan_ofWorld]
  have hcmem : c ∈ worldCandidates w m := List.getElem?_mem hk
  have hscan := @scanCandidates_found
    (w.versions.filter (fun v => v ∈ worldCandidates w m))
    (worldCandidates w m) k c 0 hk
    ((mem_filter_mem_iff _ _ _ hcmem).mpr hcv) ?miss
  · simp [hscan]
  case miss =>
    intro j hj c' hj' hmem
    have hjtake : ((worldCandidates w m).take k)[j]? = some c' := by
      rw [List.getElem?_take_of_lt hj]; exact hj'
    have hc'v : c' ∈ w.versions := List.mem_of_mem_filter hmem
    exact hmiss c' (List.getElem?_mem hjtake) hc'v

/-- Witness for C4: records exist both two commits behind the head and at
the boundary; the closer one wins with distance 2. -/
theorem c4_nearest_candidate_wins_witness :
    (worldCandidates
        { history := ["h", "a", "b", "m0"], touching := fun _ => ["m0"],
          versions := ["b", "m0"], readAccess := true, clcacheSize := 0 } "m0")[2]? =
      some "b" ∧
    (getSrclibDataVersionForPathLookbackT
      (Collab.ofWorld
        { history := ["h", "a", "b", "m0"], touching := fun _ => ["m0"],
          versions := ["b", "m0"], readAccess := true, clcacheSize := 0 })
      "r" "h" "p").1 = Except.ok ⟨"b", 2⟩ :=
  ⟨by decide,
    c4_nearest_candidate_wins
      { history := ["h", "a", "b", "m0"], touching := fun _ => ["m0"],
        versions := ["b", "m0"], readAccess := true, clcacheSize := 0 }
      "r" "h" "p" "m0" "b" 2 (by decide) rfl (by decide) (by decide) (by decide)
      (by decide)⟩

/-- C5: for a lookback with a non-empty path, the boundary commit `m` is
appended to the end of the candidate sequence after the (truncated) range
listing, so it is a candidate regardless of truncation, and whenever a
version exists at `m` the lookback succeeds. -/
theorem c5_boundary_always_appended (w : World) (repo head path m : String)
    (hp0 : path ≠ "") (ht : w.touching path = [m]) (hm : head ≠ m) (hm0 : m ≠ "") :
    worldCandidates w m =
      (w.history.takeWhile (fun x => x ≠ m)).take
        (lookbackLimitOf w.clcacheSize).toNat ++ [m] ∧
    m ∈ worldCandidates w m ∧
    (m ∈ w.versions →
      ∃ v, (getSrclibDataVersionForPathLookbackT (Collab.ofWorld w) repo head path).1 =
        Except.ok v) := by
  have hcand : worldCandidates w m =
      (w.history.takeWhile (fun x => x ≠ m)).take
        (lookbackLimitOf w.clcacheSize).toNat ++ [m] := by
    simp [worldCandidates, hm0]
  have hmem : m ∈ worldCandidates w m := by
    rw [hcand]; exact List.mem_append_right _ (by simp)
  refine ⟨hcand, hmem, fun hmv => ?_⟩
  rw [lookbackT_ofWorld w repo head path m hp0 ht hm, lookbackScan_ofWorld]
  obtain ⟨v, hv⟩ := scanCandidates_exists (worldCandidates w m) 0
    ⟨m, hmem, (mem_filter_mem_iff _ _ _ hmem).mpr hmv⟩
  exact ⟨v, by simp [hv]⟩

/-- Witness for C5 on `truncatedBoundaryWorld`: the boundary is not among
the truncated interior candidates, yet the lookback still succeeds. -/
theorem c5_boundary_always_appended_witness :
    "c251" ∈ truncatedBoundaryWorld.versions ∧
    "c251" ∉ (truncatedBoundaryWorld.history.takeWhile (fun x => x ≠ "c251")).take
      (lookbackLimitOf truncatedBoundaryWorld.clcacheSize).toNat ∧
    (∃ v, (getSrclibDataVersionForPathLookbackT (Collab.ofWorld truncatedBoundaryWorld)
      "r" "c0" "p").1 = Except.ok v) :=
  ⟨by decide, by decide,
    (c5_boundary_always_appended truncatedBoundaryWorld "r" "c0" "p" "c251"
      (by decide) rfl (by decide) (by decide)).2.2 (by decide)⟩

/-- C6 counterexample: with the default bound 250 and the boundary "c251"
lying 251 commits behind the head "c0" (its index in the ancestry line),
the only record being at the boundary, the resolver reports distance 250 —
the boundary's position in the truncated candidate sequence — not the true
ancestry distance 251 the claim requires. -/
theorem c6_counterexample :
    (getSrclibDataVersionForPathT (Collab.ofWorld truncatedBoundaryWorld)
      "r" "c0" "p").1 = Except.ok ⟨"c251", 250⟩ ∧
    truncatedBoundaryWorld.history.indexOf "c251" = 251 := by
  decide

/-- C6 amended: when the only record lies at the boundary commit `m`, the
reported distance is `m`'s zero-based position in the candidate sequence,
i.e. the length of the truncated interior listing — `min(true distance,
lookback bound)` — not the true ancestry distance when truncation occurred. -/
theorem c6_truncated_boundary_distance (w : World) (repo head path m : String)
    (hacc : w.readAccess = true) (hv : head ∉ w.versions)
    (hp0 : path ≠ "") (hpd : path ≠ ".") (ht : w.touching path = [m]) (hm : head ≠ m)
    (hm0 : m ≠ "") (hmv : m ∈ w.versions)
    (hint : ∀ c ∈ (w.history.takeWhile (fun x => x ≠ m)).take
      (lookbackLimitOf w.clcacheSize).toNat, c ∉ w.versions) :
    (getSrclibDataVersionForPathT (Collab.ofWorld w) repo head path).1 =
      Except.ok ⟨m, (((w.history.takeWhile (fun x => x ≠ m)).take
        (lookbackLimitOf w.clcacheSize).toNat).length : Int)⟩ := by
  have hcand : worldCandidates w m =
      (w.history.takeWhile (fun x => x ≠ m)).take
        (lookbackLimitOf w.clcacheSize).toNat ++ [m] := by
    simp [worldCandidates, hm0]
  have hmem : m ∈ worldCandidates w m := by
    rw [hcand]; exact List.mem_append_right _ (by simp)
  rw [resolve_ofWorld_eval w repo head path hacc, if_neg hv, if_neg hpd]
  rw [lookbackT_ofWorld w repo head path m hp0 ht hm, lookbackScan_ofWorld]
  set interior := (w.history.takeWhile (fun x => x ≠ m)).take
    (lookbackLimitOf w.clcacheSize).toNat with hint_def
  have hk : (worldCandidates w m)[interior.length]? = some m := by
    rw [hcand]; exact List.getElem?_concat_length _ _
  have hscan := @scanCandidates_found
    (w.versions.filter (fun v => v ∈ worldCandidates w m))
    (worldCandidates w m) interior.length m 0 hk
    ((mem_filter_mem_iff _ _ _ hmem).mpr hmv) ?miss
  · simp [hscan]
  case miss =>
    intro j hj c' hj' hmemf
    have hj'' : interior[j]? = some c' := by
      rw [hcand] at hj'
      rwa [List.getElem?_append_left hj] at hj'
    exact hint c' (List.getElem?_mem hj'') (List.mem_of_mem_filter hmemf)

/-- Witness for the amended C6 at a small world: the boundary "m0" is two
interior candidates behind the head, so the reported distance is 2. -/
theorem c6_truncated_boundary_distance_witness :
    (getSrclibDataVersionForPathT
      (Collab.ofWorld
        { history := ["h", "a", "m0"], touching := fun _ => ["m0"],
          versions := ["m0"], readAccess := true, clcacheSize := 0 })
      "r" "h" "p").1 =
      Except.ok ⟨"m0", (((["h", "a", "m0"].takeWhile (fun x => x ≠ "m0")).take
        (lookbackLimitOf (0 : Int)).toNat).length : Int)⟩ ∧
    (((["h", "a", "m0"].takeWhile (fun x => x ≠ "m0")).take
      (lookbackLimitOf (0 : Int)).toNat).length : Int) = 2 :=
  ⟨c6_truncated_boundary_distance
      { history := ["h", "a", "m0"], touching := fun _ => ["m0"],
        versions := ["m0"], readAccess := true, clcacheSize := 0 }
      "r" "h" "p" "m0" rfl (by decide) (by decide) (by decide) rfl (by decide)
      (by decide) (by decide) (by decide),
    by decide⟩

/-- C1 counterexample: for the empty path the resolver returns "b", two
commits behind the head, although the most recent commit at or before the
head that modified the (root) path is the head "h" itself — so the returned
commit does not lie on the ancestry line between the boundary and the head
(that line is just ["h"]). -/
theorem c1_counterexample :
    (getSrclibDataVersionForPathT (Collab.ofWorld rootWindowWorld) "r" "h" "").1 =
      Except.ok ⟨"b", 2⟩ ∧
    rootWindowWorld.touching "" = ["h"] ∧
    "b" ∉ rootWindowWorld.history.takeWhile (fun x => x ≠ "h") ++ ["h"] := by
  refine ⟨by decide, rfl, by decide⟩

/-- C1 amended: for every resolution with a NON-EMPTY path that succeeds
with commit `cmt`, `cmt` lies on the direct ancestry line from the head
back to the boundary commit `m` (the most recent commit at or before the
head that modified the path): it is among the commits of the history line
strictly before `m`, or `m` itself.  (For the empty path the code searches
with no boundary at all, as the counterexample shows.) -/
theorem c1_window_nonempty_path (w : World) (repo head path m : String)
    (hp0 : path ≠ "") (hh : w.history.head? = some head)
    (ht : w.touching path = [m]) (hm0 : m ≠ "") :
    ∀ cmt d, (getSrclibDataVersionForPathT (Collab.ofWorld w) repo head path).1 =
        Except.ok ⟨cmt, d⟩ →
      cmt ∈ w.history.takeWhile (fun x => x ≠ m) ++ [m] := by
  intro cmt d hok
  by_cases hacc : w.readAccess
  · rw [resolve_ofWorld_eval w repo head path hacc] at hok
    by_cases hv : head ∈ w.versions
    · rw [if_pos hv] at hok
      obtain ⟨rfl, -⟩ : head = cmt ∧ ((0 : Int) = d) := by
        simpa [SrclibDataVersion.mk.injEq] using hok
      by_cases hhm : head = m
      · exact List.mem_append_right _ (by simp [hhm])
      · obtain ⟨t, hT⟩ : ∃ t, w.history = head :: t := by
          cases hw : w.history with
          | nil => rw [hw] at hh; simp at hh
          | cons a t =>
            rw [hw] at hh
            simp only [List.head?_cons, Option.some_inj] at hh
            exact ⟨t, by rw [hh]⟩
        apply List.mem_append_left
        rw [hT, List.takeWhile_cons_of_pos (by simpa using hhm)]
        exact List.mem_cons_self _ _
    · rw [if_neg hv] at hok
      by_cases hpd : path = "."
      · rw [if_pos hpd] at hok
        simp at hok
      · rw [if_neg hpd] at hok
        simp only at hok
        by_cases hhm : head = m
        · simp [getSrclibDataVersionForPathLookbackT, Collab.ofWorld, hp0, ht, hhm]
            at hok
        · rw [lookbackT_ofWorld w repo head path m hp0 ht hhm,
            lookbackScan_ofWorld] at hok
          rcases hscan : scanCandidates
              (w.versions.filter (fun v => v ∈ worldCandidates w m))
              (worldCandidates w m) 0 with _ | v
          · rw [hscan] at hok; simp at hok
          · rw [hscan] at hok
            simp only [Except.ok.injEq] at hok
            have hmem := (scanCandidates_mem hscan).1
            rw [hok] at hmem
            have hcand : worldCandidates w m =
                (w.history.takeWhile (fun x => x ≠ m)).take
                  (lookbackLimitOf w.clcacheSize).toNat ++ [m] := by
              simp [worldCandidates, hm0]
            rw [hcand] at hmem
            rcases List.mem_append.mp hmem with hin | hlast
            · exact List.mem_append_left _ (List.take_subset _ _ hin)
            · exact List.mem_append_right _ hlast
  · simp [getSrclibDataVersionForPathT, Collab.ofWorld, hacc] at hok

/-- Witness for the amended C1: resolution returns "b", which lies on the
history line between the head "h" and the boundary "m0". -/
theorem c1_window_nonempty_path_witness :
    (getSrclibDataVersionForPathT (Collab.ofWorld c1WitnessWorld) "r" "h" "p").1 =
      Except.ok ⟨"b", 2⟩ ∧
    "b" ∈ c1WitnessWorld.history.takeWhile (fun x => x ≠ "m0") ++ ["m0"] :=
  ⟨by decide,
    c1_window_nonempty_path c1WitnessWorld "r" "h" "p" "m0" (by decide) rfl rfl
      (by decide) "b" 2 (by decide)⟩

/-- C9 counterexample: when the exact-match store query fails with the
upstream error "disk", the resolver returns that error verbatim — its
message mentions neither the repo "r1", the head "h7" nor the path "p9",
so the error is NOT wrapped with request context as the claim states. -/
theorem c9_counterexample :
    (getSrclibDataVersionForPathT failingExactCollab "r1" "h7" "p9").1 =
      Except.error (Err.upstream "disk") ∧
    containsChars "r1".data "disk".data = false ∧
    containsChars "h7".data "disk".data = false ∧
    containsChars "p9".data "disk".data = false := by
  decide

/-- C9 amended: the resolver performs no retry and propagates every
collaborator failure UNCHANGED (not wrapped, not reclassified): whichever
collaborator call fails first — exact-match query, path-history query,
range listing, or batch version query, on the non-empty-path flow (with
the boundary appended) as well as on the empty-path flow (no boundary) —
its error is the result verbatim; and when no collaborator fails (a pure
`World`), every failure outcome is a NotFound produced at one of the
documented decision points, so upstream faults are never masked as
NotFound. -/
theorem c9_error_propagation (c : Collab) (repo head path : String)
    (hacc : c.verifyReadAccess = .ok ()) (hres : c.resolveRepoRev = .ok ()) :
    (∀ e, c.versionsExact head = .error e →
      (getSrclibDataVersionForPathT c repo head path).1 = .error e) ∧
    (∀ e vers, c.versionsExact head = .ok vers → vers.length ≠ 1 → path ≠ "." →
      path ≠ "" → c.listCommitsPath head path = .error e →
      (getSrclibDataVersionForPathT c repo head path).1 = .error e) ∧
    (∀ e vers m, c.versionsExact head = .ok vers → vers.length ≠ 1 → path ≠ "." →
      path ≠ "" → c.listCommitsPath head path = .ok [m] → head ≠ m →
      c.listCommitsRange head m (lookbackLimitOf c.commitLogCacheSize) = .error e →
      (getSrclibDataVersionForPathT c repo head path).1 = .error e) ∧
    (∀ e vers m commits, c.versionsExact head = .ok vers → vers.length ≠ 1 →
      path ≠ "." → path ≠ "" → c.listCommitsPath head path = .ok [m] → head ≠ m →
      m ≠ "" →
      c.listCommitsRange head m (lookbackLimitOf c.commitLogCacheSize) = .ok commits →
      c.versionsBatch (commits ++ [m]) = .error e →
      (getSrclibDataVersionForPathT c repo head path).1 = .error e) ∧
    (∀ e vers, c.versionsExact head = .ok vers → vers.length ≠ 1 → path = "" →
      c.listCommitsRange head "" (lookbackLimitOf c.commitLogCacheSize) = .error e →
      (getSrclibDataVersionForPathT c repo head path).1 = .error e) ∧
    (∀ e vers commits, c.versionsExact head = .ok vers → vers.length ≠ 1 →
      path = "" →
      c.listCommitsRange head "" (lookbackLimitOf c.commitLogCacheSize) = .ok commits →
      c.versionsBatch commits = .error e →
      (getSrclibDataVersionForPathT c repo head path).1 = .error e) ∧
    (∀ w : World, w.readAccess = true →
      (∃ v, (getSrclibDataVersionForPathT (Collab.ofWorld w) repo head path).1 =
        Except.ok v) ∨
      (∃ msg, (getSrclibDataVersionForPathT (Collab.ofWorld w) repo head path).1 =
        Except.error (Err.notFound msg))) := by
  refine ⟨?_, ?_, ?_, ?_, ?_, ?_, ?_⟩
  · intro e he
    simp [getSrclibDataVersionForPathT, hacc, hres, he]
  · intro e vers hex hlen hpd hp0 hlp
    simp [getSrclibDataVersionForPathT, hacc, hres, hex, hlen, hpd,
      getSrclibDataVersionForPathLookbackT, hp0, hlp]
  · intro e vers m hex hlen hpd hp0 hlp hhm hrange
    simp [getSrclibDataVersionForPathT, hacc, hres, hex, hlen, hpd,
      getSrclibDataVersionForPathLookbackT, hp0, hlp, hhm,
      lookbackScan, hrange]
  · intro e vers m commits hex hlen hpd hp0 hlp hhm hm0 hrange hbatch
    simp [getSrclibDataVersionForPathT, hacc, hres, hex, hlen, hpd,
      getSrclibDataVersionForPathLookbackT, hp0, hlp, hhm,
      lookbackScan, hrange, hm0, hbatch]
  · intro e vers hex hlen hp0 hrange
    subst hp0
    simp [getSrclibDataVersionForPathT, hacc, hres, hex, hlen,
      (by decide : ("" : String) ≠ "."),
      getSrclibDataVersionForPathLookbackT, lookbackScan, hrange]
  · intro e vers commits hex hlen hp0 hrange hbatch
    subst hp0
    simp [getSrclibDataVersionForPathT, hacc, hres, hex, hlen,
      (by decide : ("" : String) ≠ "."),
      getSrclibDataVersionForPathLookbackT, lookbackScan, hrange, hbatch]
  · intro w hacc'
    rw [resolve_ofWorld_eval w repo head path hacc']
    by_cases hv : head ∈ w.versions
    · exact Or.inl ⟨⟨head, 0⟩, by simp [hv]⟩
    · rw [if_neg hv]
      by_cases hpd : path = "."
      · exact Or.inr ⟨rootMsg head, by simp [hpd]⟩
      · rw [if_neg hpd]
        simp only
        by_cases hp0 : path = ""
        · rw [hp0]
          rw [show getSrclibDataVersionForPathLookbackT (Collab.ofWorld w) repo head "" =
              lookbackScan (Collab.ofWorld w) repo head "" [] from by
            simp [getSrclibDataVersionForPathLookbackT]]
          rw [lookbackScan_ofWorld]
          rcases hscan : scanCandidates
              (w.versions.filter (fun v => v ∈ worldCandidates w ""))
              (worldCandidates w "") 0 with _ | v
          · exact Or.inr ⟨noVersionsFoundMsg repo head "" (worldCandidates w "").length
              (w.versions.filter (fun v => v ∈ worldCandidates w "")).length,
              by simp [hscan]⟩
          · exact Or.inl ⟨v, by simp [hscan]⟩
        · rcases hT : w.touching path with _ | ⟨m, rest⟩
          · refine Or.inr ⟨noCommitsForPathMsg path repo, ?_⟩
            simp [getSrclibDataVersionForPathLookbackT, Collab.ofWorld, hp0, hT]
          · rcases rest with _ | ⟨m2, rest2⟩
            · by_cases hhm : head = m
              · refine Or.inr ⟨lastModifiedByHeadMsg head, ?_⟩
                simp [getSrclibDataVersionForPathLookbackT, Collab.ofWorld, hp0,
                  hT, hhm]
              · rw [lookbackT_ofWorld w repo head path m hp0 hT hhm,
                  lookbackScan_ofWorld]
                rcases hscan : scanCandidates
                    (w.versions.filter (fun v => v ∈ worldCandidates w m))
                    (worldCandidates w m) 0 with _ | v
                · exact Or.inr ⟨noVersionsFoundMsg repo head ""
                    (worldCandidates w m).length
                    (w.versions.filter (fun v => v ∈ worldCandidates w m)).length,
                    by simp [hscan]⟩
                · exact Or.inl ⟨v, by simp [hscan]⟩
            · refine Or.inr ⟨noCommitsForPathMsg path repo, ?_⟩
              simp [getSrclibDataVersionForPathLookbackT, Collab.ofWorld, hp0, hT]

/-- Witness for the amended C9: a range-listing failure on the
non-empty-path flow and a batch-query failure on the empty-path
(no-boundary) flow are each propagated verbatim as the resolver's
result. -/
theorem c9_error_propagation_witness :
    (getSrclibDataVersionForPathT flakyRangeCollab "r" "h" "p").1 =
      .error (.upstream "history backend down") ∧
    (getSrclibDataVersionForPathT flakyBatchCollab "r" "h" "").1 =
      .error (.upstream "version store down") :=
  ⟨(c9_error_propagation flakyRangeCollab "r" "h" "p" rfl rfl).2.2.1
      (.upstream "history backend down") [] "m0" rfl (by decide) (by decide)
      (by decide) rfl (by decide) rfl,
    (c9_error_propagation flakyBatchCollab "r" "h" "" rfl rfl).2.2.2.2.2.1
      (.upstream "version store down") [] ["h", "a"] rfl (by decide) rfl rfl rfl⟩
